import Mathlib

/-!
Shallow embedding of the works_az scraping pipeline (Python sources under
`src/scraper` and `src/work_az_client.py`) together with proofs about the
properties of its text cleaning, salary parsing, pagination, retry,
discovery, merge and full-swap logic.

Python strings are modelled as `List Char`; Python dictionaries holding job
records are modelled as association lists from `String` keys to `PyVal`
values (a Python value is `None`, a string, an integer or a boolean, which
covers every value the modelled code paths store or test).
-/

namespace WorksAz

/-- Model of a Python value stored in a job dictionary. -/
inductive PyVal where
  | pnone : PyVal
  | pstr : List Char → PyVal
  | pint : Int → PyVal
  | pbool : Bool → PyVal
deriving DecidableEq, Repr

/-- Model of a Python dict: an association list with distinct keys,
looked up leftmost-first. -/
abbrev PyDict := List (String × PyVal)

/-- Dictionary lookup, `d.get(key)`: `some v` when the key is present,
`none` (Python `None`-from-`get`) when absent. -/
def pdGet : PyDict → String → Option PyVal
  | [], _ => Option.none
  | (k, v) :: rest, key => if k = key then some v else pdGet rest key

/-- Python truthiness of a value: `None` and `""` are falsy, `0` is falsy,
`False` is falsy. -/
def truthy : PyVal → Bool
  | PyVal.pnone => false
  | PyVal.pstr s => !s.isEmpty
  | PyVal.pint n => n != 0
  | PyVal.pbool b => b

/-- Truthiness of the result of `d.get(key)`: an absent key gives Python
`None`, which is falsy. -/
def truthyOpt : Option PyVal → Bool
  | some v => truthy v
  | Option.none => false

/-- The NUL character `'\x00'`, rejected by the PostgreSQL store. -/
def nullChar : Char := Char.ofNat 0

/-- Python whitespace (the set matched by `\s` in `re` and stripped by
`str.strip()`): ASCII whitespace, the C1 separators, NEL, NBSP and the
Unicode space characters. -/
def isPySpace (c : Char) : Bool :=
  (c.toNat = 0x20) || (0x09 ≤ c.toNat && c.toNat ≤ 0x0D) ||
  (0x1C ≤ c.toNat && c.toNat ≤ 0x1F) || (c.toNat = 0x85) || (c.toNat = 0xA0) ||
  (c.toNat = 0x1680) || (0x2000 ≤ c.toNat && c.toNat ≤ 0x200A) ||
  (c.toNat = 0x2028) || (c.toNat = 0x2029) || (c.toNat = 0x202F) ||
  (c.toNat = 0x205F) || (c.toNat = 0x3000)

/-- Python `str.strip()`: drop whitespace from both ends. -/
def pyStrip (l : List Char) : List Char :=
  List.rdropWhile isPySpace (List.dropWhile isPySpace l)

/-- `text.replace('\x00', '')` from `page_parser._clean_text` and the inner
`clean_text` of `scraper._store_jobs`. -/
def removeNulls (l : List Char) : List Char :=
  l.filter (fun c => c ≠ nullChar)

/-- Worker for `collapseWs`; the flag records whether the previous source
character was whitespace (so the single replacement space has already been
emitted for the current run). -/
def collapseWsAux : Bool → List Char → List Char
  | _, [] => []
  | inRun, c :: rest =>
    if isPySpace c then
      if inRun then collapseWsAux true rest
      else ' ' :: collapseWsAux true rest
    else c :: collapseWsAux false rest

/-- `re.sub(r'\s+', ' ', text)` from `page_parser._clean_text`: every
maximal run of whitespace becomes a single space. -/
def collapseWs (l : List Char) : List Char :=
  collapseWsAux false l

/-- Keep characters with code points in 0x20-0x7E or 0xA0-0xFFFF; this is
the complement of the character class removed by the non-printable
filtering substitution in `page_parser._clean_text`. -/
def keepPrintable (c : Char) : Bool :=
  (0x20 ≤ c.toNat && c.toNat ≤ 0x7E) || (0xA0 ≤ c.toNat && c.toNat ≤ 0xFFFF)

/-- The non-printable removal step of `page_parser._clean_text`. -/
def filterPrintable (l : List Char) : List Char :=
  l.filter keepPrintable

/-- `JobPageParser._clean_text` (`page_parser.py` lines 810-824): for falsy
(empty) input return `""`; otherwise remove NULs, collapse whitespace runs
to single spaces, remove non-printables, and strip the ends. -/
def cleanText (l : List Char) : List Char :=
  if l.isEmpty then []
  else pyStrip (filterPrintable (collapseWs (removeNulls l)))

/-- The inner `clean_text(text, max_length)` of `scraper._store_jobs`
(`scraper.py` lines 319-326): falsy input maps to SQL NULL (`none`);
otherwise NULs are removed, the ends stripped, the result truncated to
`max_length` when given, and an empty result again maps to NULL. -/
def cleanTruncate (text : Option (List Char)) (maxLength : Option Nat) :
    Option (List Char) :=
  match text with
  | Option.none => Option.none
  | some s =>
    if s.isEmpty then Option.none
    else
      let cleaned := pyStrip (removeNulls s)
      let truncated :=
        match maxLength with
        | some m => cleaned.take m
        | Option.none => cleaned
      if truncated.isEmpty then Option.none else some truncated

/-! ## Salary parsing (`JobPageParser._parse_salary`, `page_parser.py` 601-633) -/

/-- ASCII digit test, the `\d` class on the inputs handled here. -/
def isAsciiDigit (c : Char) : Bool :=
  0x30 ≤ c.toNat && c.toNat ≤ 0x39

/-- Uppercase ASCII letter, the `[A-Z]` class. -/
def isUpperAZ (c : Char) : Bool :=
  0x41 ≤ c.toNat && c.toNat ≤ 0x5A

/-- The `[-–]` class of the range pattern: hyphen or en dash. -/
def isDashChar (c : Char) : Bool :=
  c = '-' || c = Char.ofNat 0x2013

/-- `int(...)` on a captured digit group. -/
def digitsToNat (l : List Char) : Nat :=
  l.foldl (fun acc c => acc * 10 + (c.toNat - 0x30)) 0

/-- Scan for the closing `-->` of an HTML comment; the lazy `.*?` of the
pattern cannot cross a newline, so a newline before the closer means no
match. Returns the characters after the closer. -/
def scanComment : List Char → Option (List Char)
  | '-' :: '-' :: '>' :: rest => some rest
  | c :: rest => if c = '\n' then Option.none else scanComment rest
  | [] => Option.none

/-- Worker for `removeHtmlComments`, fuelled to make the recursion
structural; one unit of fuel is spent per comment removed or per character
kept, so `l.length` fuel always suffices. -/
def removeCommentsAux : Nat → List Char → List Char
  | 0, l => l
  | fuel + 1, l =>
    match l with
    | '<' :: '!' :: '-' :: '-' :: rest =>
      (match scanComment rest with
       | some rem => removeCommentsAux fuel rem
       | Option.none => '<' :: removeCommentsAux fuel ('!' :: '-' :: '-' :: rest))
    | c :: rest => c :: removeCommentsAux fuel rest
    | [] => []

/-- The comment-stripping substitution at the top of `_parse_salary`. -/
def removeHtmlComments (l : List Char) : List Char :=
  removeCommentsAux l.length l

/-- Optional `([A-Z]{3})?` at the end of both salary patterns: capture
three uppercase letters when they are next, else capture nothing. -/
def takeCurrency (l : List Char) : Option (List Char) :=
  match l with
  | a :: b :: c :: _ =>
    if isUpperAZ a && isUpperAZ b && isUpperAZ c then some [a, b, c]
    else Option.none
  | _ => Option.none

/-- Try the range pattern (digits, optional spaces, dash, optional spaces,
digits, optional spaces, optional currency) anchored at the head of `l`.
The character classes involved are pairwise disjoint, so greedy matching
without backtracking is faithful to the regex. -/
def matchRangeAt (l : List Char) : Option (Nat × Nat × Option (List Char)) :=
  let (d1, r1) := l.span isAsciiDigit
  if d1.isEmpty then Option.none
  else
    match r1.dropWhile isPySpace with
    | c :: r3 =>
      if isDashChar c then
        let (d2, r5) := (r3.dropWhile isPySpace).span isAsciiDigit
        if d2.isEmpty then Option.none
        else some (digitsToNat d1, digitsToNat d2,
                   takeCurrency (r5.dropWhile isPySpace))
      else Option.none
    | [] => Option.none

/-- `re.search` of the range pattern: try each start position from the
left and take the first match. -/
def searchRange : List Char → Option (Nat × Nat × Option (List Char))
  | [] => Option.none
  | c :: rest =>
    match matchRangeAt (c :: rest) with
    | some r => some r
    | Option.none => searchRange rest

/-- Try the single-value pattern (digits, optional spaces, optional
currency) anchored at the head of `l`. -/
def matchSingleAt (l : List Char) : Option (Nat × Option (List Char)) :=
  let (d1, r1) := l.span isAsciiDigit
  if d1.isEmpty then Option.none
  else some (digitsToNat d1, takeCurrency (r1.dropWhile isPySpace))

/-- `re.search` of the single-value pattern. -/
def searchSingle : List Char → Option (Nat × Option (List Char))
  | [] => Option.none
  | c :: rest =>
    match matchSingleAt (c :: rest) with
    | some r => some r
    | Option.none => searchSingle rest

/-- Default currency code `'AZN'`. -/
def aznCur : List Char := ['A', 'Z', 'N']

/-- Result dictionary of `_parse_salary`; a `none` field is an absent key. -/
structure SalaryData where
  salary_min : Option Nat
  salary_max : Option Nat
  salary_currency : Option (List Char)
deriving DecidableEq, Repr

/-- `JobPageParser._parse_salary`: strip HTML comments and surrounding
whitespace, try the range pattern first, then the single-value pattern;
default the currency to `'AZN'` when the currency group is absent. -/
def parseSalary (s : List Char) : SalaryData :=
  let t := pyStrip (removeHtmlComments s)
  match searchRange t with
  | some (lo, hi, cur) =>
    { salary_min := some lo, salary_max := some hi,
      salary_currency := some (cur.getD aznCur) }
  | Option.none =>
    match searchSingle t with
    | some (n, cur) =>
      { salary_min := some n, salary_max := some n,
        salary_currency := some (cur.getD aznCur) }
    | Option.none =>
      { salary_min := Option.none, salary_max := Option.none,
        salary_currency := Option.none }

/-! ## Detail-page fetch with retry (`JobPageParser.scrape_job_page`,
`page_parser.py` 69-151) -/

/-- Outcome of one `session.get` attempt against a detail URL, as seen by
`scrape_job_page`. `status c` is a non-success HTTP status (at least 400);
a successful fetch whose HTML parses is `success` with the extracted
dictionary; `reqError` is a `requests.RequestException` raised by the get
itself (the flag records whether its text mentions 429, which an HTTP
error message does exactly when its status is 429); `parseError` is any
other exception while handling the response. -/
inductive FetchOutcome where
  | success : PyDict → FetchOutcome
  | status : Nat → FetchOutcome
  | reqError : Bool → FetchOutcome
  | parseError : FetchOutcome
deriving DecidableEq, Repr

/-- Whether the attempt produced parsed job data. -/
def FetchOutcome.isSuccess : FetchOutcome → Bool
  | FetchOutcome.success _ => true
  | _ => false

/-- What a call of `scrape_job_page` did: the returned value, how many
fetch attempts were issued, the backoff sleeps performed (attempt index
paired with seconds slept), and how many times the session identity was
renewed. -/
structure ScrapeResult where
  result : Option PyDict
  attempts : Nat
  waits : List (Nat × Nat)
  renewals : Nat
deriving DecidableEq, Repr

/-- One of `403`, `404`, `502`, `503`: the statuses that trigger session
renewal and retry in `scrape_job_page`. -/
def isBlockStatus (c : Nat) : Bool :=
  c = 403 || c = 404 || c = 502 || c = 503

/-- The retry ceiling `max_retries = 3` of `scrape_job_page`. -/
def maxRetries : Nat := 3

/-- The retry loop of `scrape_job_page`; `remaining` counts loop
iterations left, `attempt` the 0-based index of the current iteration.
On 429 the session is renewed and the loop retried with exponential
backoff (base delay 1s); on a block status likewise, except that the last
attempt falls through to `raise_for_status`, whose exception is caught and
turned into `None`; any other error status raises at once and is caught
(its message mentions 429 only for status 429, which is handled earlier),
so it yields `None` without a retry; a request exception retries with
backoff only when its text mentions 429; any other exception yields
`None`. No exception escapes the loop. -/
def scrapeLoop (oracle : Nat → FetchOutcome) :
    Nat → Nat → List (Nat × Nat) → Nat → ScrapeResult
  | 0, attempt, waits, renewals =>
    { result := Option.none, attempts := attempt, waits := waits,
      renewals := renewals }
  | remaining + 1, attempt, waits, renewals =>
    match oracle attempt with
    | FetchOutcome.success d =>
      { result := some d, attempts := attempt + 1, waits := waits,
        renewals := renewals }
    | FetchOutcome.status c =>
      if c = 429 then
        if attempt + 1 < maxRetries then
          scrapeLoop oracle remaining (attempt + 1)
            (waits ++ [(attempt, 2 ^ attempt)]) (renewals + 1)
        else
          { result := Option.none, attempts := attempt + 1, waits := waits,
            renewals := renewals + 1 }
      else if isBlockStatus c then
        if attempt + 1 < maxRetries then
          scrapeLoop oracle remaining (attempt + 1)
            (waits ++ [(attempt, 2 ^ attempt)]) (renewals + 1)
        else
          { result := Option.none, attempts := attempt + 1, waits := waits,
            renewals := renewals + 1 }
      else
        { result := Option.none, attempts := attempt + 1, waits := waits,
          renewals := renewals }
    | FetchOutcome.reqError has429 =>
      if attempt + 1 < maxRetries && has429 then
        scrapeLoop oracle remaining (attempt + 1)
          (waits ++ [(attempt, 2 ^ attempt)]) renewals
      else
        { result := Option.none, attempts := attempt + 1, waits := waits,
          renewals := renewals }
    | FetchOutcome.parseError =>
      { result := Option.none, attempts := attempt + 1, waits := waits,
        renewals := renewals }

/-- `scrape_job_page(job_url)` for a non-empty URL, as a function of the
per-attempt fetch outcomes. -/
def scrapeJobPage (oracle : Nat → FetchOutcome) : ScrapeResult :=
  scrapeLoop oracle maxRetries 0 [] 0

/-! ## Paginated collection (`APIJobScraper.get_all_company_jobs`,
`api_scraper.py` 147-169) -/

/-- The fixed page size `limit = 20`. -/
def pageLimit : Nat := 20

/-- The pagination loop of `get_all_company_jobs`. `resp k` is what the
`k`-th request (at offset `20 * k`) returns: `none` models a fetch error
(`get_company_jobs` returned `None`), otherwise the page's `entities` list
and its reported `totalCount`. Returns the number of requests issued and
the collected records; `fuel` bounds the recursion and is irrelevant when
chosen at least the number of pages the walk visits. -/
def gacjLoop (resp : Nat → Option (List α × Nat)) :
    Nat → Nat → List α → Nat × List α
  | 0, k, acc => (k, acc)
  | fuel + 1, k, acc =>
    match resp k with
    | Option.none => (k + 1, acc)
    | some (entities, totalCount) =>
      if entities.isEmpty then (k + 1, acc)
      else
        let acc2 := acc ++ entities
        if entities.length < pageLimit ∨ totalCount ≤ acc2.length then
          (k + 1, acc2)
        else gacjLoop resp fuel (k + 1) acc2

/-- `get_all_company_jobs`, returning (requests issued, records). -/
def getAllCompanyJobs (resp : Nat → Option (List α × Nat)) (fuel : Nat) :
    Nat × List α :=
  gacjLoop resp fuel 0 []

/-! ## Company discovery (`APIJobScraper.get_all_companies` and
`get_known_companies`, `api_scraper.py` 25-125) -/

/-- Outcome of one `get_general_jobs` / `search_jobs` call as seen by
`get_all_companies`: the call raised past the endpoint helper (for example
a JSON decode error), returned `None` (request error caught inside the
helper), or returned a response whose `entities` each carry an optional
company slug (`none` when the job has no company slug key, `some []` when
the slug is an empty string). -/
inductive CallResult where
  | raised : CallResult
  | retNone : CallResult
  | ok : List (Option (List Char)) → CallResult

/-- `discover_companies_from_jobs`: the truthy (non-empty) company slugs
of a page of jobs. -/
def slugsFrom (jobs : List (Option (List Char))) : List (List Char) :=
  jobs.filterMap fun o =>
    match o with
    | some s => if s.isEmpty then Option.none else some s
    | Option.none => Option.none

/-- `companies.update(...)` on the accumulating set, modelled as ordered
insertion without duplicates. -/
def addUnique (acc : List (List Char)) (newSlugs : List (List Char)) :
    List (List Char) :=
  newSlugs.foldl (fun a s => if s ∈ a then a else a ++ [s]) acc

/-- The static fallback list of `get_known_companies`. -/
def knownCompanies : List (List Char) :=
  ["abc-telecom".toList, "kapital-bank".toList, "pasha-bank".toList,
   "access-bank".toList, "baku-electronics".toList, "Gilan-holdinq".toList,
   "rabitabank".toList, "express-bank".toList, "azersu".toList,
   "azercell".toList, "bakcell".toList, "nar".toList, "socar".toList,
   "azerishiq".toList, "aztelecom".toList, "pmu".toList, "azpost".toList,
   "stp".toList, "azermash".toList, "azerenerji".toList,
   "azerturk-bank".toList, "yelo-bank".toList, "xalq-bank".toList,
   "gunay-bank".toList, "amrahbank".toList, "turanbank".toList,
   "muganbank".toList, "ziraat-bank-azerbaijan".toList, "abb-bank".toList,
   "pasha-life".toList, "pasha-insurance".toList,
   "ateshgah-insurance".toList]

/-- One iteration of the query loop of `get_all_companies`: the general
listing call runs first; if it raises, the per-query `except` skips the
search call too; a `None` return or an empty page contributes nothing. -/
def queryLoopStep (acc : List (List Char)) (general search : CallResult) :
    List (List Char) :=
  match general with
  | CallResult.raised => acc
  | CallResult.retNone =>
    (match search with
     | CallResult.ok jobs => addUnique acc (slugsFrom jobs)
     | _ => acc)
  | CallResult.ok jobs =>
    let acc2 := addUnique acc (slugsFrom jobs)
    match search with
    | CallResult.ok jobs2 => addUnique acc2 (slugsFrom jobs2)
    | _ => acc2

/-- The dynamically discovered slug set of `get_all_companies`: five
query-loop iterations (general listing plus parameterized search, one per
search query) followed by five offset-loop iterations over the general
listing at offsets 0, 20, 40, 60, 80; every per-iteration failure is
caught and skipped. -/
def discoveredCompanies (qcalls : Nat → CallResult × CallResult)
    (ocalls : Nat → CallResult) : List (List Char) :=
  let afterQueries := (List.range 5).foldl
    (fun acc i => queryLoopStep acc (qcalls i).1 (qcalls i).2) []
  (List.range 5).foldl
    (fun acc i =>
      match ocalls i with
      | CallResult.ok jobs => addUnique acc (slugsFrom jobs)
      | _ => acc)
    afterQueries

/-- `get_all_companies`: the discovered set, or the static fallback list
when dynamic discovery yields nothing. -/
def getAllCompanies (qcalls : Nat → CallResult × CallResult)
    (ocalls : Nat → CallResult) : List (List Char) :=
  let found := discoveredCompanies qcalls ocalls
  if found.isEmpty then knownCompanies else found

/-! ## Enrichment merge and the full-swap pipeline
(`AsyncGlorriJobScraper.scrape_all_jobs` / `enhance_single_job`,
`scraper.py` 31-239) -/

/-- Python `{**job, **detailed}`: keys of `job` keep their position but
take `detailed`'s value when the key occurs there; keys only in `detailed`
are appended in their order. -/
def dictMerge (a b : PyDict) : PyDict :=
  (a.map fun kv =>
      match pdGet b kv.1 with
      | some w => (kv.1, w)
      | Option.none => kv) ++
    b.filter fun kv => (pdGet a kv.1).isNone

/-- The merge step of `enhance_single_job` (`scraper.py` 159-211) for a
job that carries a `job_url`: `detailedData` is what
`page_parser.scrape_job_page` returned (`none` for a fetch failure,
timeout or exception). The scraped dictionary is merged over the API
record only when it is truthy and has more than two entries; otherwise
the original record passes through unchanged. -/
def enhanceSingleJob (job : PyDict) (detailedData : Option PyDict) : PyDict :=
  match detailedData with
  | some d => if 2 < d.length then dictMerge job d else job
  | Option.none => job

/-- Whether `job.get(key)` is truthy and `str(...)` of it strips to a
non-empty text, the per-field test of the enhancement-quality check in
`scrape_all_jobs` (its `str(v).strip()` on the truthy values `None` never
reaches, integers and booleans is always non-empty). -/
def fieldHasContent (j : PyDict) (key : String) : Bool :=
  match pdGet j key with
  | some (PyVal.pstr s) => !(pyStrip s).isEmpty
  | some PyVal.pnone => false
  | some (PyVal.pint n) => n != 0
  | some (PyVal.pbool b) => b
  | Option.none => false

/-- `has_enhanced_data` of the quality check in `scrape_all_jobs` lines
93-104: the record carries at least one non-empty enriched field. -/
def hasEnhancedData (j : PyDict) : Bool :=
  fieldHasContent j "description" || fieldHasContent j "requirements" ||
  fieldHasContent j "category" || fieldHasContent j "job_type" ||
  fieldHasContent j "apply_url"

/-- Truthiness of the `job_url` field, the filter of
`_enhance_jobs_with_details`. -/
def hasJobUrl (j : PyDict) : Bool :=
  truthyOpt (pdGet j "job_url")

/-- Sequential enhancement of the URL-carrying jobs; `oracle i` is the
scrape result for the `i`-th of them. -/
def enhanceList (oracle : Nat → Option PyDict) :
    Nat → List PyDict → List PyDict
  | _, [] => []
  | i, job :: rest =>
    enhanceSingleJob job (oracle i) :: enhanceList oracle (i + 1) rest

/-- `_enhance_jobs_with_details` (`scraper.py` 146-239): jobs without a
URL pass through (appended after the enhanced ones); when no job has a
URL the input list is returned as is. Every per-job failure is caught and
the original record kept, so the output always has one record per input
record. -/
def enhanceJobsWithDetails (oracle : Nat → Option PyDict)
    (jobs : List PyDict) : List PyDict :=
  let withUrls := jobs.filter hasJobUrl
  if withUrls.isEmpty then jobs
  else enhanceList oracle 0 withUrls ++ jobs.filter fun j => !hasJobUrl j

/-- Observable outcome of one `scrape_all_jobs` run: the run counters,
whether `truncate_all_data` was invoked, and the records handed to the
store writer afterwards (empty when the run aborted before the swap). -/
structure RunResult where
  companiesFound : Nat
  jobsFound : Nat
  enhancedJobs : Nat
  enrichedCount : Nat
  truncateCalled : Bool
  storedJobs : List PyDict
deriving DecidableEq, Repr

/-- `scrape_all_jobs` (`scraper.py` 31-144) as a function of the
discovered companies, the API job records and the per-job scrape oracle:
abort (keeping the store) when discovery or the API yields nothing or the
enhanced list is empty; otherwise count the records with enhanced data
(below 50% only a warning is logged), truncate the store and hand over
the enhanced records. -/
def scrapeAllJobs (companies : List (List Char)) (apiJobs : List PyDict)
    (oracle : Nat → Option PyDict) : RunResult :=
  if companies.isEmpty then
    { companiesFound := companies.length, jobsFound := 0, enhancedJobs := 0,
      enrichedCount := 0, truncateCalled := false, storedJobs := [] }
  else if apiJobs.isEmpty then
    { companiesFound := companies.length, jobsFound := apiJobs.length,
      enhancedJobs := 0, enrichedCount := 0, truncateCalled := false,
      storedJobs := [] }
  else
    let enhanced := enhanceJobsWithDetails oracle apiJobs
    if enhanced.isEmpty then
      { companiesFound := companies.length, jobsFound := apiJobs.length,
        enhancedJobs := 0, enrichedCount := 0, truncateCalled := false,
        storedJobs := [] }
    else
      { companiesFound := companies.length, jobsFound := apiJobs.length,
        enhancedJobs := enhanced.length,
        enrichedCount := (enhanced.filter hasEnhancedData).length,
        truncateCalled := true, storedJobs := enhanced }

/-! ## Worker-profile search (`WorkAzClient.search_workers_with_skills`,
`work_az_client.py` 139-171) -/

/-- One `technicalSkills` entry of a worker profile: the nested
`skill.name` and the proficiency level. -/
structure TechSkill where
  name : List Char
  level : Option (List Char)
deriving DecidableEq, Repr

/-- The `WorkerProfile` dataclass of `work_az_client.py`, with the fields
the search reads modelled precisely and the remaining ones carried
opaquely as optional text. -/
structure WorkerProfile where
  id : Int
  full_name : List Char
  slug : List Char
  profile_image_url : Option (List Char)
  bio : Option (List Char)
  open_to_work_salary_by_agreement : Bool
  resume_url : Option (List Char)
  technical_skills : List TechSkill
deriving DecidableEq, Repr

/-- Python `str.lower()` restricted to the ASCII letters the skill-name
comparison involves. -/
def pyLower (l : List Char) : List Char :=
  l.map Char.toLower

/-- The per-worker skill filter of `search_workers_with_skills`: the
lowered names of the worker's non-empty technical skills, and acceptance
when some requested name, lowered, occurs among them. -/
def workerMatchesSkills (skillNames : List (List Char))
    (w : WorkerProfile) : Bool :=
  let workerSkills :=
    (w.technical_skills.filter fun sk => !sk.name.isEmpty).map
      fun sk => pyLower sk.name
  skillNames.any fun s => workerSkills.contains (pyLower s)

/-- `search_workers_with_skills`: pages that raised are skipped
(`responses` holds `none` for them), the workers of the remaining pages
are filtered by `workerMatchesSkills`. -/
def searchWorkersWithSkills (skillNames : List (List Char))
    (responses : List (Option (List WorkerProfile))) : List WorkerProfile :=
  responses.foldl
    (fun acc r =>
      match r with
      | Option.none => acc
      | some workers => acc ++ workers.filter (workerMatchesSkills skillNames))
    []

/-! ## Concrete test vectors used by the closed theorems below -/

/-- Mock paginated endpoint with `totalCount = 45` returning pages of 20,
20 and 5 records. -/
def c4Resp : Nat → Option (List Unit × Nat) := fun k =>
  if k = 0 then some (List.replicate 20 (), 45)
  else if k = 1 then some (List.replicate 20 (), 45)
  else if k = 2 then some (List.replicate 5 (), 45)
  else Option.none

/-- A worker profile whose single technical skill is named `Python`. -/
def c10Worker : WorkerProfile :=
  { id := 1, full_name := "A".toList, slug := "a".toList,
    profile_image_url := Option.none, bio := Option.none,
    open_to_work_salary_by_agreement := false, resume_url := Option.none,
    technical_skills := [{ name := "Python".toList, level := Option.none }] }

/-! ## Lemmas about the cleaning primitives -/

theorem mem_pyStrip {c : Char} {l : List Char} (h : c ∈ pyStrip l) :
    c ∈ l := by
  have h1 : c ∈ List.dropWhile isPySpace l := by
    have hpre := List.rdropWhile_prefix isPySpace (List.dropWhile isPySpace l)
    exact hpre.sublist.subset h
  have hsuf := List.dropWhile_suffix (l := l) isPySpace
  exact hsuf.sublist.subset h1

theorem pyStrip_head_not {l : List Char} {c : Char}
    (h : (pyStrip l).head? = some c) : isPySpace c = false := by
  unfold pyStrip at h
  obtain ⟨t, ht⟩ := List.rdropWhile_prefix isPySpace (List.dropWhile isPySpace l)
  have hm : (List.dropWhile isPySpace l).head? = some c := by
    rw [← ht, List.head?_append, h]
    rfl
  have h2 := List.head?_dropWhile_not isPySpace l
  rw [hm] at h2
  exact h2

theorem pyStrip_getLast_not {l : List Char} {c : Char}
    (h : (pyStrip l).getLast? = some c) : isPySpace c = false := by
  have hm : (List.dropWhile isPySpace
      (List.dropWhile isPySpace l).reverse).head? = some c := by
    simpa [pyStrip, List.rdropWhile] using h
  have h2 := List.head?_dropWhile_not isPySpace
    (List.dropWhile isPySpace l).reverse
  rw [hm] at h2
  exact h2

/-! ## C9: properties of `_clean_text` -/

/-- C9 counterexample: `_clean_text` is not idempotent and its output can
contain a run of two consecutive spaces. On `"a \x7f b"` the whitespace
collapse runs before the non-printable filter removes `\x7f`, so the two
spaces it separated become adjacent in the output `"a  b"`, and a second
application collapses them further to `"a b"`. -/
theorem c9_not_idempotent_counterexample :
    cleanText ['a', ' ', Char.ofNat 0x7f, ' ', 'b'] = ['a', ' ', ' ', 'b'] ∧
    cleanText (cleanText ['a', ' ', Char.ofNat 0x7f, ' ', 'b']) ≠
      cleanText ['a', ' ', Char.ofNat 0x7f, ' ', 'b'] := by
  decide

/-- C9 (amended): the output of `_clean_text` never contains a null byte
and never has leading or trailing whitespace; however the function is not
idempotent and its output can retain a whitespace run of length two, since
removing a non-printable character can join two collapsed spaces (see the
counterexample). -/
theorem c9_clean_text_output_sanitized (l : List Char) :
    (∀ c ∈ cleanText l, c ≠ nullChar) ∧
    (∀ c, (cleanText l).head? = some c → isPySpace c = false) ∧
    (∀ c, (cleanText l).getLast? = some c → isPySpace c = false) := by
  unfold cleanText
  split
  · simp
  · refine ⟨?_, ?_, ?_⟩
    · intro c hc
      have h1 := mem_pyStrip hc
      unfold filterPrintable at h1
      have h2 : keepPrintable c = true := (List.mem_filter.mp h1).2
      intro hEq
      rw [hEq] at h2
      exact absurd h2 (by decide)
    · intro c hc
      exact pyStrip_head_not hc
    · intro c hc
      exact pyStrip_getLast_not hc

/-- C9 witness: the amended theorem applied to the input `" a\x00b "`,
whose cleaned form is `"ab"`. -/
theorem c9_witness :
    ('a' : Char) ≠ nullChar ∧ isPySpace 'a' = false ∧ isPySpace 'b' = false :=
  ⟨(c9_clean_text_output_sanitized [' ', 'a', nullChar, 'b', ' ']).1 'a'
      (by decide),
   (c9_clean_text_output_sanitized [' ', 'a', nullChar, 'b', ' ']).2.1 'a'
      (by decide),
   (c9_clean_text_output_sanitized [' ', 'a', nullChar, 'b', ' ']).2.2 'b'
      (by decide)⟩

/-! ## C3: bounded fields are truncated, not rejected -/

set_option maxRecDepth 20000

/-- C3: the writer's `clean_text` truncates every bounded text field to
its length bound instead of rejecting it — any stored value obeys its
bound — and a 600-character title is stored as its first 500 characters
(the write produces a value, it does not fail). -/
theorem c3_truncation_not_rejection :
    (∀ (s : List Char) (m : Nat) (t : List Char),
        cleanTruncate (some s) (some m) = some t → t.length ≤ m) ∧
    cleanTruncate (some (List.replicate 600 'a')) (some 500) =
      some ((List.replicate 600 'a').take 500) := by
  constructor
  · intro s m t h
    cases hE : s.isEmpty with
    | true => simp [cleanTruncate, hE] at h
    | false =>
      simp only [cleanTruncate, hE, Bool.false_eq_true, if_false] at h
      split at h
      · exact absurd h (by simp)
      · obtain rfl : List.take m (pyStrip (removeNulls s)) = t :=
          Option.some.inj h
        simp only [List.length_take]
        omega
  · decide

/-- C3 witness: the general bound applied to the 600-character title. -/
theorem c3_witness : (List.replicate 500 'a').length ≤ 500 :=
  c3_truncation_not_rejection.1 (List.replicate 600 'a') 500
    (List.replicate 500 'a') (by decide)

/-! ## C5: null bytes are stripped before persistence -/

/-- C5: no value the writer's `clean_text` produces contains an embedded
null byte, and a description with an embedded null byte is stored with the
byte removed rather than rejected. -/
theorem c5_no_null_bytes_persisted :
    (∀ (s : List Char) (m : Option Nat) (t : List Char),
        cleanTruncate (some s) m = some t → nullChar ∉ t) ∧
    cleanTruncate (some ("Hello".toList ++ [nullChar] ++ "World".toList))
        Option.none = some ("HelloWorld".toList) := by
  constructor
  · intro s m t h hmem
    have hmem2 : nullChar ∈ pyStrip (removeNulls s) := by
      cases hE : s.isEmpty with
      | true => simp [cleanTruncate, hE] at h
      | false =>
        cases m with
        | none =>
          simp only [cleanTruncate, hE, Bool.false_eq_true, if_false] at h
          split at h
          · exact absurd h (by simp)
          · obtain rfl : pyStrip (removeNulls s) = t := Option.some.inj h
            exact hmem
        | some mv =>
          simp only [cleanTruncate, hE, Bool.false_eq_true, if_false] at h
          split at h
          · exact absurd h (by simp)
          · obtain rfl : List.take mv (pyStrip (removeNulls s)) = t :=
              Option.some.inj h
            exact List.mem_of_mem_take hmem
    have h1 := mem_pyStrip hmem2
    unfold removeNulls at h1
    have h2 := (List.mem_filter.mp h1).2
    simp at h2
  · decide

/-- C5 witness: the general statement applied to `"Hello\x00World"`. -/
theorem c5_witness : nullChar ∉ ("HelloWorld".toList) :=
  c5_no_null_bytes_persisted.1
    ("Hello".toList ++ [nullChar] ++ "World".toList) Option.none
    ("HelloWorld".toList) (by decide)

/-! ## C8: salary parsing -/

/-- C8: `_parse_salary` maps the range input `"1200 - 1500 AZN"` to the
bounds 1200/1500 with currency `AZN`, maps the single-value input
`"1500"` to equal bounds 1500/1500 with the default currency `AZN`, and
whenever the range pattern does not match, the two bounds it produces are
always equal. -/
theorem c8_parse_salary_patterns :
    parseSalary ("1200 - 1500 AZN".toList) =
      { salary_min := some 1200, salary_max := some 1500,
        salary_currency := some aznCur } ∧
    parseSalary ("1500".toList) =
      { salary_min := some 1500, salary_max := some 1500,
        salary_currency := some aznCur } ∧
    (∀ s : List Char,
      searchRange (pyStrip (removeHtmlComments s)) = Option.none →
      (parseSalary s).salary_min = (parseSalary s).salary_max) := by
  refine ⟨by decide, by decide, ?_⟩
  intro s h
  simp only [parseSalary]
  rw [h]
  cases hs : searchSingle (pyStrip (removeHtmlComments s)) with
  | none => rfl
  | some r =>
    obtain ⟨n, cur⟩ := r
    rfl

/-- C8 witness: the equal-bounds fact applied to the single-value
input. -/
theorem c8_witness :
    (parseSalary ("1500".toList)).salary_min =
      (parseSalary ("1500".toList)).salary_max :=
  c8_parse_salary_patterns.2.2 ("1500".toList) (by decide)

/-! ## C2: the enrichment merge -/

theorem pdGet_append (a b : PyDict) (k : String) :
    pdGet (a ++ b) k =
      match pdGet a k with
      | some v => some v
      | Option.none => pdGet b k := by
  induction a with
  | nil => rfl
  | cons kv rest ih =>
    obtain ⟨k1, v1⟩ := kv
    by_cases hk : k1 = k
    · simp [pdGet, hk]
    · simp [pdGet, hk, ih]

theorem pdGet_mapOverride (a b : PyDict) (k : String) :
    pdGet (a.map fun kv =>
        match pdGet b kv.1 with
        | some w => (kv.1, w)
        | Option.none => kv) k =
      match pdGet a k with
      | some v =>
        some (match pdGet b k with | some w => w | Option.none => v)
      | Option.none => Option.none := by
  induction a with
  | nil => rfl
  | cons kv rest ih =>
    obtain ⟨k1, v1⟩ := kv
    by_cases hk : k1 = k
    · subst hk
      cases hb : pdGet b k1 <;> simp [pdGet, hb]
    · cases hb : pdGet b k1 <;> simp [pdGet, hb, hk, ih]

theorem pdGet_filterAbsent (a b : PyDict) (k : String)
    (h : pdGet a k = Option.none) :
    pdGet (b.filter fun kv => (pdGet a kv.1).isNone) k = pdGet b k := by
  induction b with
  | nil => rfl
  | cons kv rest ih =>
    obtain ⟨k1, v1⟩ := kv
    by_cases hk : k1 = k
    · subst hk
      simp [List.filter_cons, h, pdGet, ih]
    · cases hcond : (pdGet a k1).isNone <;>
        simp [List.filter_cons, hcond, pdGet, hk, ih]

/-- Lookup in `{**a, **b}`: a key present in `b` yields `b`'s value,
otherwise `a`'s. -/
theorem pdGet_dictMerge (a b : PyDict) (k : String) :
    pdGet (dictMerge a b) k =
      match pdGet b k with
      | some w => some w
      | Option.none => pdGet a k := by
  unfold dictMerge
  rw [pdGet_append, pdGet_mapOverride]
  cases ha : pdGet a k with
  | none =>
    rw [pdGet_filterAbsent a b k ha]
    cases hb : pdGet b k <;> simp
  | some v =>
    cases hb : pdGet b k <;> simp

/-- C2 counterexample: merging the base record
`{title: "Engineer", description: None}` with the enrichment result
`{job_url: "u", description: "", category: "IT"}` (three keys, so the
`len(detailed_data) > 2` gate passes) overwrites `description` with the
empty string — the empty enriched value does erase the base value, so the
merged record's description is `""`, not the unchanged `None` the claim
requires. -/
theorem c2_empty_overwrites_counterexample :
    pdGet (enhanceSingleJob
        [("title", PyVal.pstr ("Engineer".toList)),
         ("description", PyVal.pnone)]
        (some [("job_url", PyVal.pstr ("u".toList)),
               ("description", PyVal.pstr []),
               ("category", PyVal.pstr ("IT".toList))])) "description" =
      some (PyVal.pstr []) ∧
    some (PyVal.pstr []) ≠ some PyVal.pnone := by
  decide

/-- C2 (amended): when the enrichment dictionary passes the
`len(detailed_data) > 2` gate, the merge overwrites a base field exactly
when the enrichment result contains that key — regardless of whether the
enriched value is empty — and keys absent from the enrichment result keep
their base values; an enrichment dictionary with at most two entries (or a
failed scrape) leaves the record entirely unchanged. -/
theorem c2_merge_overwrites_on_presence (job d : PyDict) (k : String) :
    (2 < d.length →
      (∀ v, pdGet d k = some v →
        pdGet (enhanceSingleJob job (some d)) k = some v) ∧
      (pdGet d k = Option.none →
        pdGet (enhanceSingleJob job (some d)) k = pdGet job k)) ∧
    (d.length ≤ 2 → enhanceSingleJob job (some d) = job) := by
  constructor
  · intro hlen
    constructor
    · intro v hv
      simp only [enhanceSingleJob, if_pos hlen]
      rw [pdGet_dictMerge, hv]
    · intro hv
      simp only [enhanceSingleJob, if_pos hlen]
      rw [pdGet_dictMerge, hv]
  · intro hlen
    simp [enhanceSingleJob, Nat.not_lt.mpr hlen]

/-- C2 witness: the amended theorem applied to the counterexample's
records and the `category` key. -/
theorem c2_witness :
    pdGet (enhanceSingleJob
        [("title", PyVal.pstr ("Engineer".toList)),
         ("description", PyVal.pnone)]
        (some [("job_url", PyVal.pstr ("u".toList)),
               ("description", PyVal.pstr []),
               ("category", PyVal.pstr ("IT".toList))])) "category" =
      some (PyVal.pstr ("IT".toList)) :=
  ((c2_merge_overwrites_on_presence
      [("title", PyVal.pstr ("Engineer".toList)),
       ("description", PyVal.pnone)]
      [("job_url", PyVal.pstr ("u".toList)),
       ("description", PyVal.pstr []),
       ("category", PyVal.pstr ("IT".toList))] "category").1
    (by decide)).1 (PyVal.pstr ("IT".toList)) (by decide)

/-! ## C1: the full-swap pipeline and `truncate_all_data` -/

theorem enhanceList_length (oracle : Nat → Option PyDict) (i : Nat)
    (jobs : List PyDict) : (enhanceList oracle i jobs).length = jobs.length := by
  induction jobs generalizing i with
  | nil => rfl
  | cons job rest ih => simp [enhanceList, ih]

theorem length_filter_split (p : α → Bool) (l : List α) :
    (l.filter p).length + (l.filter fun a => !p a).length = l.length := by
  induction l with
  | nil => rfl
  | cons a t ih =>
    cases h : p a <;> simp [List.filter_cons, h] <;> omega

/-- Enhancement never loses or invents records: every fetched record
appears in the output exactly once (enhanced, passed through on failure,
or appended as URL-less). -/
theorem enhanceJobs_length (oracle : Nat → Option PyDict)
    (jobs : List PyDict) :
    (enhanceJobsWithDetails oracle jobs).length = jobs.length := by
  unfold enhanceJobsWithDetails
  cases hE : (jobs.filter hasJobUrl).isEmpty with
  | true => rw [if_pos hE]
  | false =>
    rw [if_neg (by simp [hE])]
    simp only [List.length_append, enhanceList_length]
    have h2 := length_filter_split hasJobUrl jobs
    omega

/-- C1 counterexample: a run that discovers one company and fetches one
record whose detail scrape fails entirely (`N = 1` fetched, zero records
gain any enriched field) still invokes `truncate_all_data` and swaps in
the unenriched record: the pass-through record makes `enhanced_jobs`
non-empty, so the abort guard does not fire, and the below-50% enrichment
quality check only logs a warning and continues. -/
theorem c1_truncate_despite_zero_enriched_counterexample :
    scrapeAllJobs ["c".toList]
        [[("title", PyVal.pstr ("T".toList)),
          ("job_url", PyVal.pstr ("u".toList))]]
        (fun _ => Option.none) =
      { companiesFound := 1, jobsFound := 1, enhancedJobs := 1,
        enrichedCount := 0, truncateCalled := true,
        storedJobs := [[("title", PyVal.pstr ("T".toList)),
                        ("job_url", PyVal.pstr ("u".toList))]] } := by
  decide

/-- C1 (amended): `scrape_all_jobs` skips `truncate_all_data` (leaving
the stored rows untouched) exactly when discovery yields no companies or
the API yields no records; whenever at least one record is fetched the
enhanced list is non-empty — failed enrichment passes records through —
so the writer clears the store even when zero of the N fetched records
gained any enriched field (the 50% quality check only logs a warning). -/
theorem c1_truncate_condition (companies : List (List Char))
    (apiJobs : List PyDict) (oracle : Nat → Option PyDict) :
    (scrapeAllJobs companies apiJobs oracle).truncateCalled =
      (!companies.isEmpty && !apiJobs.isEmpty) := by
  unfold scrapeAllJobs
  cases hc : companies.isEmpty with
  | true => simp [hc]
  | false =>
    cases ha : apiJobs.isEmpty with
    | true => simp [ha]
    | false =>
      have hlen := enhanceJobs_length oracle apiJobs
      have hne : ¬(enhanceJobsWithDetails oracle apiJobs).isEmpty = true := by
        rw [List.isEmpty_iff]
        intro h0
        have h1 : apiJobs.length = 0 := by
          rw [← hlen, h0]
          rfl
        rw [List.length_eq_zero] at h1
        subst h1
        simp at ha
      rw [if_neg (by simp [hc]), if_neg (by simp [ha]), if_neg hne]
      simp [hc, ha]

/-! ## C4: pagination termination -/

/-- C4: against the mock endpoint with page size 20 and `totalCount` 45
returning pages of 20, 20 and 5 records, `get_all_company_jobs` issues
exactly 3 page requests and returns all 45 records; and in general, after
a non-empty page the walk stops exactly when the page holds fewer records
than the page size or the cumulative records collected reach the page's
reported total count, and otherwise requests the next page. -/
theorem c4_pagination_termination :
    getAllCompanyJobs c4Resp 10 = (3, List.replicate 45 ()) ∧
    (∀ (α : Type) (resp : Nat → Option (List α × Nat)) (fuel k : Nat)
        (acc entities : List α) (totalCount : Nat),
      resp k = some (entities, totalCount) → entities ≠ [] →
      ((entities.length < pageLimit ∨ totalCount ≤ (acc ++ entities).length →
          gacjLoop resp (fuel + 1) k acc = (k + 1, acc ++ entities)) ∧
       (pageLimit ≤ entities.length → (acc ++ entities).length < totalCount →
          gacjLoop resp (fuel + 1) k acc =
            gacjLoop resp fuel (k + 1) (acc ++ entities)))) := by
  constructor
  · decide
  · intro α resp fuel k acc entities totalCount hr hne
    have hEm : entities.isEmpty = false := by
      simp [List.isEmpty_iff, hne]
    constructor
    · intro hstop
      simp only [gacjLoop, hr]
      rw [if_neg (by simp [hEm]), if_pos hstop]
    · intro h1 h2
      have hno : ¬(entities.length < pageLimit ∨
          totalCount ≤ (acc ++ entities).length) := by
        push_neg
        exact ⟨h1, h2⟩
      simp only [gacjLoop, hr]
      rw [if_neg (by simp [hEm]), if_neg hno]

/-- C4 witness: the continuation case of the general statement applied to
the mock endpoint's first page. -/
theorem c4_witness :
    gacjLoop c4Resp 10 0 ([] : List Unit) =
      gacjLoop c4Resp 9 1 ([] ++ List.replicate 20 ()) :=
  ((c4_pagination_termination.2 Unit c4Resp 9 0 [] (List.replicate 20 ()) 45
      (by decide) (by decide)).2 (by decide) (by decide))

/-! ## C6: retry ceiling of `scrape_job_page` -/

theorem scrapeLoop_bounds (oracle : Nat → FetchOutcome) :
    ∀ (remaining attempt : Nat) (waits : List (Nat × Nat)) (renewals : Nat),
      (scrapeLoop oracle remaining attempt waits renewals).attempts ≤
        attempt + remaining ∧
      (∀ iw ∈ (scrapeLoop oracle remaining attempt waits renewals).waits,
          iw ∈ waits ∨ (iw.2 = 2 ^ iw.1 ∧ iw.1 + 1 < maxRetries)) ∧
      ((∀ i, (oracle i).isSuccess = false) →
        (scrapeLoop oracle remaining attempt waits renewals).result =
          Option.none) := by
  intro remaining
  induction remaining with
  | zero =>
    intro attempt waits renewals
    refine ⟨Nat.le_refl _, ?_, fun _ => rfl⟩
    intro iw hm
    exact Or.inl hm
  | succ r ih =>
    intro attempt waits renewals
    have hmemNew : ∀ iw ∈ waits ++ [(attempt, 2 ^ attempt)],
        attempt + 1 < maxRetries →
        iw ∈ waits ∨ (iw.2 = 2 ^ iw.1 ∧ iw.1 + 1 < maxRetries) := by
      intro iw hm hlt
      rcases List.mem_append.mp hm with h | h
      · exact Or.inl h
      · right
        rcases List.mem_singleton.mp h with rfl
        exact ⟨rfl, hlt⟩
    cases ho : oracle attempt with
    | success d =>
      refine ⟨?_, ?_, ?_⟩
      · simp only [scrapeLoop, ho]
        omega
      · simp only [scrapeLoop, ho]
        intro iw hm
        exact Or.inl hm
      · intro hall
        have := hall attempt
        rw [ho] at this
        exact absurd this (by simp [FetchOutcome.isSuccess])
    | status c =>
      by_cases h429 : c = 429
      · by_cases hlt : attempt + 1 < maxRetries
        · have hrec := ih (attempt + 1) (waits ++ [(attempt, 2 ^ attempt)])
            (renewals + 1)
          refine ⟨?_, ?_, ?_⟩
          · simp only [scrapeLoop, ho, h429, if_pos hlt, if_pos]
            have := hrec.1
            omega
          · simp only [scrapeLoop, ho, h429, if_pos hlt, if_pos]
            intro iw hm
            rcases hrec.2.1 iw hm with h | h
            · exact hmemNew iw h hlt
            · exact Or.inr h
          · intro hall
            simp only [scrapeLoop, ho, h429, if_pos hlt, if_pos]
            exact hrec.2.2 hall
        · refine ⟨?_, ?_, ?_⟩
          · simp only [scrapeLoop, ho, h429, if_neg hlt, if_pos]
            omega
          · simp only [scrapeLoop, ho, h429, if_neg hlt, if_pos]
            intro iw hm
            exact Or.inl hm
          · intro hall
            simp only [scrapeLoop, ho, h429, if_neg hlt, if_pos]
      · by_cases hblock : isBlockStatus c = true
        · by_cases hlt : attempt + 1 < maxRetries
          · have hrec := ih (attempt + 1) (waits ++ [(attempt, 2 ^ attempt)])
              (renewals + 1)
            refine ⟨?_, ?_, ?_⟩
            · simp only [scrapeLoop, ho, if_neg h429, hblock, if_pos hlt,
                if_true]
              have := hrec.1
              omega
            · simp only [scrapeLoop, ho, if_neg h429, hblock, if_pos hlt,
                if_true]
              intro iw hm
              rcases hrec.2.1 iw hm with h | h
              · exact hmemNew iw h hlt
              · exact Or.inr h
            · intro hall
              simp only [scrapeLoop, ho, if_neg h429, hblock, if_pos hlt,
                if_true]
              exact hrec.2.2 hall
          · refine ⟨?_, ?_, ?_⟩
            · simp only [scrapeLoop, ho, if_neg h429, hblock, if_neg hlt,
                if_true]
              omega
            · simp only [scrapeLoop, ho, if_neg h429, hblock, if_neg hlt,
                if_true]
              intro iw hm
              exact Or.inl hm
            · intro hall
              simp only [scrapeLoop, ho, if_neg h429, hblock, if_neg hlt,
                if_true]
        · refine ⟨?_, ?_, ?_⟩
          · simp only [scrapeLoop, ho, if_neg h429, if_neg hblock]
            omega
          · simp only [scrapeLoop, ho, if_neg h429, if_neg hblock]
            intro iw hm
            exact Or.inl hm
          · intro hall
            simp only [scrapeLoop, ho, if_neg h429, if_neg hblock]
    | reqError hflag =>
      cases hretry : (decide (attempt + 1 < maxRetries) && hflag) with
      | true =>
        have hlt : attempt + 1 < maxRetries := by
          have h2 := hretry
          simp only [Bool.and_eq_true, decide_eq_true_eq] at h2
          exact h2.1
        have hrec := ih (attempt + 1) (waits ++ [(attempt, 2 ^ attempt)])
          renewals
        refine ⟨?_, ?_, ?_⟩
        · simp only [scrapeLoop, ho, hretry, if_pos]
          have := hrec.1
          omega
        · simp only [scrapeLoop, ho, hretry, if_pos]
          intro iw hm
          rcases hrec.2.1 iw hm with h | h
          · exact hmemNew iw h hlt
          · exact Or.inr h
        · intro hall
          simp only [scrapeLoop, ho, hretry, if_pos]
          exact hrec.2.2 hall
      | false =>
        refine ⟨?_, ?_, ?_⟩
        · simp only [scrapeLoop, ho, hretry, Bool.false_eq_true, if_neg not_false]
          omega
        · simp only [scrapeLoop, ho, hretry, Bool.false_eq_true, if_neg not_false]
          intro iw hm
          exact Or.inl hm
        · intro hall
          simp only [scrapeLoop, ho, hretry, Bool.false_eq_true, if_neg not_false]
    | parseError =>
      refine ⟨?_, ?_, ?_⟩
      · simp only [scrapeLoop, ho]
        omega
      · simp only [scrapeLoop, ho]
        intro iw hm
        exact Or.inl hm
      · intro hall
        simp only [scrapeLoop, ho]

/-- C6: for every sequence of per-attempt fetch outcomes,
`scrape_job_page` issues at most `max_retries = 3` fetch attempts, every
backoff sleep it performs before retry `i + 1` lasts `base_delay * 2 ^ i`
seconds (exponential backoff, only below the ceiling), and when no attempt
succeeds it returns `None` — the surrounding handlers catch every failure,
so the modelled loop is total and no exception aborts the batch. -/
theorem c6_retry_ceiling (oracle : Nat → FetchOutcome) :
    (scrapeJobPage oracle).attempts ≤ maxRetries ∧
    (∀ iw ∈ (scrapeJobPage oracle).waits,
        iw.2 = 2 ^ iw.1 ∧ iw.1 + 1 < maxRetries) ∧
    ((∀ i, (oracle i).isSuccess = false) →
      (scrapeJobPage oracle).result = Option.none) := by
  have h := scrapeLoop_bounds oracle maxRetries 0 [] 0
  refine ⟨by simpa using h.1, ?_, h.2.2⟩
  intro iw hm
  rcases h.2.1 iw hm with h1 | h2
  · exact absurd h1 (List.not_mem_nil iw)
  · exact h2

/-- C6 witness: a request that is rate-limited on all three attempts
surfaces failure as `None`. -/
theorem c6_witness :
    (scrapeJobPage fun _ => FetchOutcome.status 429).result = Option.none :=
  (c6_retry_ceiling fun _ => FetchOutcome.status 429).2.2 fun _ => rfl

/-! ## C7: discovery fallback -/

/-- C7: `get_all_companies` never returns an empty list — when the
dynamically discovered slug set is empty (every general-listing and
search sub-strategy raised, returned nothing or yielded no slugs) the
result is exactly the static `get_known_companies` fallback list — and a
raising sub-strategy does not abort discovery: with every query-loop call
raising, a single successful offset-loop page still yields its slug. -/
theorem c7_discovery_never_empty (qcalls : Nat → CallResult × CallResult)
    (ocalls : Nat → CallResult) :
    (getAllCompanies qcalls ocalls ≠ [] ∧
     (discoveredCompanies qcalls ocalls = [] →
       getAllCompanies qcalls ocalls = knownCompanies)) ∧
    getAllCompanies (fun _ => (CallResult.raised, CallResult.raised))
        (fun i => if i = 1 then
            CallResult.ok [some ("kapital-bank".toList), Option.none, some []]
          else CallResult.retNone) = ["kapital-bank".toList] := by
  refine ⟨⟨?_, ?_⟩, by rfl⟩
  · unfold getAllCompanies
    cases hE : (discoveredCompanies qcalls ocalls).isEmpty with
    | true =>
      rw [if_pos hE]
      simp [knownCompanies]
    | false =>
      rw [if_neg (by simp [hE])]
      simpa [List.isEmpty_iff] using hE
  · intro h
    unfold getAllCompanies
    rw [if_pos (by simp [List.isEmpty_iff, h])]

/-- C7 witness: with every sub-strategy raising, the result is the
fallback list. -/
theorem c7_witness :
    getAllCompanies (fun _ => (CallResult.raised, CallResult.raised))
      (fun _ => CallResult.raised) = knownCompanies :=
  ((c7_discovery_never_empty (fun _ => (CallResult.raised, CallResult.raised))
      (fun _ => CallResult.raised)).1).2 rfl

/-! ## C10: soundness of the skill filter -/

theorem mem_searchWorkers_matches (skillNames : List (List Char))
    (responses : List (Option (List WorkerProfile))) (w : WorkerProfile)
    (hw : w ∈ searchWorkersWithSkills skillNames responses) :
    workerMatchesSkills skillNames w = true := by
  unfold searchWorkersWithSkills at hw
  suffices H : ∀ (rs : List (Option (List WorkerProfile)))
      (acc : List WorkerProfile),
      (∀ x ∈ acc, workerMatchesSkills skillNames x = true) →
      w ∈ rs.foldl
        (fun acc r =>
          match r with
          | Option.none => acc
          | some workers =>
            acc ++ workers.filter (workerMatchesSkills skillNames))
        acc →
      workerMatchesSkills skillNames w = true by
    exact H responses [] (by intro x hx; cases hx) hw
  intro rs
  induction rs with
  | nil =>
    intro acc hacc hmem
    exact hacc w hmem
  | cons r rest ih =>
    intro acc hacc hmem
    cases r with
    | none => exact ih acc hacc hmem
    | some workers =>
      refine ih _ ?_ hmem
      intro x hx
      rcases List.mem_append.mp hx with h | h
      · exact hacc x h
      · exact (List.mem_filter.mp h).2

/-- C10: every worker returned by `search_workers_with_skills` has at
least one technical skill whose non-empty name equals, compared
case-insensitively, one of the requested skill names; a worker with no
matching technical skill is never included. -/
theorem c10_skill_filter_sound (skillNames : List (List Char))
    (responses : List (Option (List WorkerProfile))) (w : WorkerProfile)
    (hw : w ∈ searchWorkersWithSkills skillNames responses) :
    ∃ sk ∈ w.technical_skills, sk.name ≠ [] ∧
      pyLower sk.name ∈ skillNames.map pyLower := by
  have hmatch := mem_searchWorkers_matches skillNames responses w hw
  unfold workerMatchesSkills at hmatch
  rw [List.any_eq_true] at hmatch
  obtain ⟨s, hs, hcont⟩ := hmatch
  rw [List.contains_eq_any_beq, List.any_eq_true] at hcont
  obtain ⟨x, hx, hbeq⟩ := hcont
  rw [List.mem_map] at hx
  obtain ⟨sk, hskmem, rfl⟩ := hx
  have hskfilter := List.mem_filter.mp hskmem
  refine ⟨sk, hskfilter.1, ?_, ?_⟩
  · have := hskfilter.2
    simp only [Bool.not_eq_true] at this
    intro hnil
    rw [List.isEmpty_iff.mpr hnil] at this
    cases this
  · have heq : pyLower sk.name = pyLower s := (eq_of_beq hbeq).symm
    rw [heq]
    exact List.mem_map.mpr ⟨s, hs, rfl⟩

/-- C10 witness: the soundness theorem applied to a concrete search whose
only worker has the skill `Python`, requested as `PYTHON`. -/
theorem c10_witness :
    ∃ sk ∈ c10Worker.technical_skills, sk.name ≠ [] ∧
      pyLower sk.name ∈ ["PYTHON".toList].map pyLower :=
  c10_skill_filter_sound ["PYTHON".toList] [some [c10Worker]] c10Worker
    (by decide)

end WorksAz
